/-
Verification of the event-session engine of the clash-royale-api repository.

The definitions below are a shallow embedding of the Python sources
`src/clash_royale_api/battle_log_parser.py`,
`src/clash_royale_api/models/event_deck.py` and
`src/clash_royale_api/event_deck_manager.py`.

Modelling conventions:
* Python strings are modelled as lists of Unicode code points (`PyStr`).
  The helper `codes` turns a Lean string literal into such a list, so the
  concrete vocabulary tables of the source can be written readably.
  Python compares strings by code point, which is exactly lexicographic
  order on these lists.
* `datetime` values are modelled by the record `PDateTime`; chronological
  comparison of two datetimes is comparison of the packed field value
  `PDateTime.key`, and `timedelta` arithmetic (the one-hour session gap,
  the recency cutoff) is carried out on `PDateTime.toSec`, the proleptic
  Gregorian second count used by Python datetime arithmetic.
* `datetime.strptime(clean, percentY-percentm-...)` is modelled for the
  canonical fixed-width stamp `YYYYMMDDTHHMMSS` produced by the game API;
  any other string falls back to the supplied `now` value, matching the
  `except` fallback of `_parse_battle_time`.  (CPython strptime also
  accepts some variable-width digit runs; those inputs never occur in the
  theorems below.)
* Python `hash` of a tuple of strings is process-seeded; it is therefore a
  parameter `hsh : List PyStr -> Int` of the segmenter.
* Python dicts are association lists in insertion order; assignment to an
  existing key replaces the value in place (`dinsert`).
* Python `sorted` / `list.sort` are stable; they are modelled by
  `List.insertionSort` with a non-strict comparator, which places an
  element after the run of equal elements already sorted, reproducing the
  stable order.
* Floating point division in `win_rate` computations is modelled by exact
  rational division.
-/
import Mathlib

/-- A Python string: the list of its code points. -/
abbrev PyStr := List Nat

/-- Code points of a Lean string literal (used to write concrete Python
string constants of the source readably). -/
def codes (s : String) : PyStr := s.data.map Char.toNat

/-- Python `str.lower` on one ASCII code point. -/
def lowerC (c : Nat) : Nat := if 65 ≤ c ∧ c ≤ 90 then c + 32 else c

/-- Python `str.lower` (the source only lowercases ASCII vocabulary). -/
def lowerS (s : PyStr) : PyStr := s.map lowerC

/-- Python string comparison `s <= t`: lexicographic on code points. -/
def strLeB : PyStr → PyStr → Bool
  | [], _ => true
  | _ :: _, [] => false
  | a :: s1, b :: s2 => if a < b then true else if b < a then false else strLeB s1 s2

/-- Boolean test that `p` starts the list `s`. -/
def startsWithB : PyStr → PyStr → Bool
  | [], _ => true
  | _ :: _, [] => false
  | a :: p, b :: s => a == b && startsWithB p s

/-- Python substring containment `p in s`. -/
def isInfixB (p : PyStr) : PyStr → Bool
  | [] => startsWithB p []
  | c :: s => startsWithB p (c :: s) || isInfixB p s

/-- Digit rendering worker; the fuel always suffices because the number
shrinks by a factor of ten per step. -/
def natCharsAux : Nat → Nat → PyStr
  | 0, _ => []
  | f + 1, n => if n < 10 then [48 + n] else natCharsAux f (n / 10) ++ [48 + n % 10]

/-- Python `str(n)` for a natural number: decimal digits, no padding. -/
def natChars (n : Nat) : PyStr := natCharsAux (n + 1) n

/-- Two-digit zero-padded decimal rendering (strftime field). -/
def pad2 (n : Nat) : PyStr := [48 + n / 10 % 10, 48 + n % 10]

/-- Four-digit zero-padded decimal rendering (strftime field). -/
def pad4 (n : Nat) : PyStr :=
  [48 + n / 1000 % 10, 48 + n / 100 % 10, 48 + n / 10 % 10, 48 + n % 10]

/-- A parsed `datetime` value. -/
structure PDateTime where
  year : Nat
  month : Nat
  day : Nat
  hour : Nat
  minute : Nat
  second : Nat
deriving DecidableEq, Repr

/-- Packed comparison key: chronological order of in-range datetimes is
numeric order of this value (the fields packed in base 100, the year in
the highest position). -/
def PDateTime.key (t : PDateTime) : Nat :=
  ((((t.year * 100 + t.month) * 100 + t.day) * 100 + t.hour) * 100 + t.minute) * 100
    + t.second

/-- Leap year test of the proleptic Gregorian calendar. -/
def isLeap (y : Nat) : Bool := (y % 4 == 0 && y % 100 != 0) || y % 400 == 0

/-- Days in the given month. -/
def daysInMonth (y m : Nat) : Nat :=
  if m = 2 then (if isLeap y then 29 else 28)
  else if m = 4 ∨ m = 6 ∨ m = 9 ∨ m = 11 then 30 else 31

/-- Days in the months strictly before month `m`. -/
def daysBeforeMonth (y m : Nat) : Nat :=
  (List.range m).foldl (fun acc k => if 1 ≤ k then acc + daysInMonth y k else acc) 0

/-- Day ordinal of a civil date (day 1 is 0001-01-01), as in Python
`datetime.toordinal`. -/
def dayOrdinal (t : PDateTime) : Nat :=
  365 * (t.year - 1) + (t.year - 1) / 4 - (t.year - 1) / 100 + (t.year - 1) / 400
    + daysBeforeMonth t.year t.month + (t.day - 1)

/-- Second count of a datetime; differences of this value are the exact
`timedelta` seconds used by Python datetime subtraction. -/
def PDateTime.toSec (t : PDateTime) : Nat :=
  dayOrdinal t * 86400 + t.hour * 3600 + t.minute * 60 + t.second

/-- Decimal digit test on a code point. -/
def digitB (c : Nat) : Bool := 48 ≤ c && c ≤ 57

/-- Value of a digit code point. -/
def dv (c : Nat) : Nat := c - 48

/-- The canonical 15-character stamp of a datetime:
`pad4 year ++ pad2 month ++ pad2 day ++ T ++ pad2 hour ++ pad2 min ++ pad2 sec`
(84 is the code point of the letter T). -/
def cleanOf (t : PDateTime) : PyStr :=
  pad4 t.year ++ pad2 t.month ++ pad2 t.day ++ 84 :: (pad2 t.hour ++ pad2 t.minute ++ pad2 t.second)

/-- `datetime.strptime(clean, "YYYYMMDDTHHMMSS")` on the canonical
fixed-width stamp: exactly 15 characters, digits around a letter T, with
all fields in the ranges the datetime constructor accepts.  Any other
shape yields `none` (the caller then falls back to `now`). -/
def parseClean (cs : PyStr) : Option PDateTime :=
  match cs with
  | [y1, y2, y3, y4, m1, m2, d1, d2, t, h1, h2, n1, n2, s1, s2] =>
    if digitB y1 && digitB y2 && digitB y3 && digitB y4 && digitB m1 && digitB m2 &&
       digitB d1 && digitB d2 && (t == 84) && digitB h1 && digitB h2 && digitB n1 &&
       digitB n2 && digitB s1 && digitB s2 then
      let y := dv y1 * 1000 + dv y2 * 100 + dv y3 * 10 + dv y4
      let mo := dv m1 * 10 + dv m2
      let dd := dv d1 * 10 + dv d2
      let hh := dv h1 * 10 + dv h2
      let mi := dv n1 * 10 + dv n2
      let ss := dv s1 * 10 + dv s2
      if 1 ≤ y ∧ 1 ≤ mo ∧ mo ≤ 12 ∧ 1 ≤ dd ∧ dd ≤ daysInMonth y mo ∧ hh ≤ 23 ∧
         mi ≤ 59 ∧ ss ≤ 59 then
        some ⟨y, mo, dd, hh, mi, ss⟩
      else none
    else none
  | _ => none

/-- `BattleLogParser._parse_battle_time` without the fallback: split at the
first dot, then strptime. -/
def parseBT (s : PyStr) : Option PDateTime :=
  parseClean (s.takeWhile (fun c => c ≠ 46))

/-- `BattleLogParser._parse_battle_time`: unparseable stamps fall back to
`datetime.now()`, supplied here as `now`. -/
def parseOr (now : PDateTime) (s : PyStr) : PDateTime :=
  (parseBT s).getD now

/-- `EventType` enum of models/event_deck.py. -/
inductive EventType where
  | challenge | tournament | special_event | grand_challenge
  | classic_challenge | draft_challenge | sudden_death | double_elimination
deriving DecidableEq, Repr

/-- `EventProgress` enum of models/event_deck.py. -/
inductive EventProgress where
  | in_progress | completed | eliminated | forfeited
deriving DecidableEq, Repr

/-- One card entry of the `cards` array of a battle-log record, with the
defaults `.get` supplies for missing keys already applied.  `slot` is
`none` when the record has no slot key. -/
structure RawCard where
  name : PyStr
  id : Int
  level : Nat
  maxLevel : Nat
  rarity : PyStr
  elixirCost : Nat
  slot : Option Nat
deriving DecidableEq, Repr

/-- One side (team or opponent entry) of a battle-log record. -/
structure SidePlayer where
  tag : PyStr
  pname : Option PyStr
  cards : List RawCard
  crowns : Nat
  trophyChange : Option Int
deriving DecidableEq, Repr

/-- One battle-log record, with the `.get` defaults applied:
`gameModeName` is the empty string when the record carries no game mode,
and `isLadderBattle` is `true` when the key is absent. -/
structure Battle where
  battleTime : PyStr
  gameModeName : PyStr
  team : List SidePlayer
  opponent : List SidePlayer
  isLadderBattle : Bool
deriving DecidableEq, Repr

/-- `BattleLogParser.EVENT_BATTLE_MODES`, in dict insertion order (the
source iterates it in this order and stops at the first match). -/
def eventBattleModes : List (PyStr × EventType) :=
  [ (codes (r"Challenge"), .challenge)
  , (codes (r"Grand Challenge"), .grand_challenge)
  , (codes (r"Classic Challenge"), .classic_challenge)
  , (codes (r"Draft Challenge"), .draft_challenge)
  , (codes (r"Tournament"), .tournament)
  , (codes (r"Special Event"), .special_event)
  , (codes (r"Sudden Death"), .sudden_death)
  , (codes (r"Double Elimination"), .double_elimination) ]

/-- `BattleLogParser.EVENT_PATTERNS`, in dict insertion order. -/
def eventPatterns : List (PyStr × PyStr) :=
  [ (codes (r"lava"), codes (r"Lava Hound Challenge"))
  , (codes (r"hog"), codes (r"Hog Rider Challenge"))
  , (codes (r"mortar"), codes (r"Mortar Challenge"))
  , (codes (r"graveyard"), codes (r"Graveyard Challenge"))
  , (codes (r"ram rage"), codes (r"Ram Rage Challenge"))
  , (codes (r"sparky"), codes (r"Sparky Challenge"))
  , (codes (r"electro"), codes (r"Electro Challenge"))
  , (codes (r"skeleton"), codes (r"Skeleton Army Challenge"))
  , (codes (r"bandit"), codes (r"Bandit Challenge"))
  , (codes (r"night witch"), codes (r"Night Witch Challenge"))
  , (codes (r"royale"), codes (r"Clash Royale Championship"))
  , (codes (r"worlds"), codes (r"World Championship"))
  , (codes (r"ccgs"), codes (r"Clash Championship Series")) ]

/-- `BattleLogParser._is_event_battle`. -/
def isEventBattle (b : Battle) : Bool :=
  let mode := lowerS b.gameModeName
  (eventBattleModes.any fun p => isInfixB (lowerS p.1) mode)
  || (!b.team.isEmpty && b.team.any fun pl => pl.cards.isEmpty)
  || !b.isLadderBattle

/-- `BattleLogParser._extract_deck_from_battle`: the first team player's
card names, in slot order when every card carries a slot. -/
def extractDeckFromBattle (b : Battle) : List PyStr :=
  match b.team with
  | [] => []
  | pl :: _ =>
    let cards :=
      if pl.cards.all (fun c => c.slot.isSome) then
        List.insertionSort (fun c c' : RawCard => c.slot.getD 0 ≤ c'.slot.getD 0) pl.cards
      else pl.cards
    cards.map (fun c => c.name)

/-- The event dict built by `BattleLogParser._extract_event_data`. -/
structure EventData where
  event_type : EventType
  event_name : PyStr
  battle_mode : PyStr
  deck_cards : List PyStr
deriving DecidableEq, Repr

/-- `BattleLogParser._extract_event_data`. -/
def extractEventData (b : Battle) : EventData :=
  let modeName := b.gameModeName
  let et := ((eventBattleModes.find? fun p =>
      isInfixB (lowerS p.1) (lowerS modeName)).map Prod.snd).getD .challenge
  let en := ((eventPatterns.find? fun p =>
      isInfixB p.1 (lowerS modeName)).map Prod.snd).getD modeName
  ⟨et, en, modeName, extractDeckFromBattle b⟩

/-- Python `sorted` on a list of strings. -/
def sortStrs (l : List PyStr) : List PyStr :=
  List.insertionSort (fun a b : PyStr => strLeB a b = true) l

/-- `BattleLogParser._is_same_deck_different_levels`. -/
def isSameDeckDifferentLevels (d1 d2 : List PyStr) : Bool :=
  if d1.length ≠ d2.length then false
  else sortStrs d1 == sortStrs d2

/-- `BattleLogParser._is_new_event`. -/
def isNewEvent (b : Battle) (curEv : Option EventData) (bt : PDateTime)
    (lastT : Option PDateTime) : Bool :=
  match curEv with
  | none => true
  | some ev =>
    if (match lastT with
        | some lt => decide ((bt.toSec : Int) - (lt.toSec : Int) > 3600)
        | none => false) then true
    else
      let newEd := extractEventData b
      if newEd.event_type ≠ ev.event_type then true
      else if !b.team.isEmpty then
        let curDeck := extractDeckFromBattle b
        if ev.deck_cards ≠ curDeck then
          !isSameDeckDifferentLevels ev.deck_cards curDeck
        else false
      else false

/-- The strftime date string YYYYMMDD of `_generate_event_id`. -/
def dateStrOf (t : PDateTime) : PyStr := pad4 t.year ++ pad2 t.month ++ pad2 t.day

/-- `BattleLogParser._generate_event_id`.  `hsh` models the Python builtin
`hash` on the tuple of sorted card names; it is seeded per process. -/
def genEventId (hsh : List PyStr → Int) (ev : EventData) (b : Battle) : PyStr :=
  let name := (lowerS ev.event_name).map (fun c => if c = 32 then 95 else c)
  let ds := dateStrOf ((parseBT b.battleTime).getD ⟨1, 1, 1, 0, 0, 0⟩)
  let deckHash : Int := if ev.deck_cards.isEmpty then 0 else hsh (sortStrs ev.deck_cards)
  name ++ 95 :: ds ++ 95 :: natChars (deckHash.natAbs % 1000)

/-- Python dict assignment `d[k] = v` on an association list in insertion
order: replace the value of an existing key in place, else append. -/
def dinsert {V : Type} : List (PyStr × V) → PyStr → V → List (PyStr × V)
  | [], k, v => [(k, v)]
  | (k', v') :: t, k, v => if k' = k then (k', v) :: t else (k', v') :: dinsert t k v

/-- One entry of the `event_groups` dict: id, event data, battles. -/
abbrev EGroup := PyStr × (EventData × List Battle)

/-- Flush the open group into `event_groups`
(the `if current_event and current_battles` save step). -/
def flushGroup (hsh : List PyStr → Int) (groups : List EGroup)
    (curEv : Option EventData) (curBs : List Battle) : List EGroup :=
  match curEv, curBs with
  | some ev, b0 :: _ => dinsert groups (genEventId hsh ev b0) (ev, curBs)
  | _, _ => groups

/-- The iteration of `BattleLogParser._group_battles_by_event` over the
sorted battle list. -/
def groupGo (hsh : List PyStr → Int) (now : PDateTime) (groups : List EGroup)
    (curEv : Option EventData) (curBs : List Battle) (lastT : Option PDateTime) :
    List Battle → List EGroup
  | [] => flushGroup hsh groups curEv curBs
  | b :: rest =>
    let bt := parseOr now b.battleTime
    if isNewEvent b curEv bt lastT then
      groupGo hsh now (flushGroup hsh groups curEv curBs)
        (some (extractEventData b)) [b] (some bt) rest
    else
      groupGo hsh now groups curEv (curBs ++ [b]) (some bt) rest

/-- The sort key order of `_group_battles_by_event`
(`sorted(..., key=battleTime)`): string comparison of the battle times. -/
def battleLe (x y : Battle) : Prop := strLeB x.battleTime y.battleTime = true

instance battleLeDec : DecidableRel battleLe :=
  fun x y => inferInstanceAs (Decidable (_ = true))

/-- `BattleLogParser._group_battles_by_event`: filter to event battles,
sort by the battleTime string, then cut into groups. -/
def groupBattlesByEvent (hsh : List PyStr → Int) (now : PDateTime)
    (battleLogs : List Battle) : List EGroup :=
  let sorted := List.insertionSort battleLe
    (battleLogs.filter (fun b => isEventBattle b))
  groupGo hsh now [] none [] none sorted

/-- `CardInDeck` of models/event_deck.py. -/
structure CardInDeck where
  name : PyStr
  id : Int
  level : Nat
  max_level : Nat
  rarity : PyStr
  elixir_cost : Nat
deriving DecidableEq, Repr

/-- `BattleRecord` of models/event_deck.py. -/
structure BattleRecord where
  timestamp : PDateTime
  opponent_tag : PyStr
  opponent_name : Option PyStr
  result : PyStr
  crowns : Nat
  opponent_crowns : Nat
  trophy_change : Option Int
  battle_mode : Option PyStr
deriving DecidableEq, Repr

/-- `Deck` of models/event_deck.py (average elixir as exact rational). -/
structure DeckM where
  cards : List CardInDeck
  avg_elixir : ℚ
deriving DecidableEq, Repr

/-- `EventPerformance` of models/event_deck.py, with the field defaults of
the pydantic model. -/
structure EventPerformance where
  wins : Nat := 0
  losses : Nat := 0
  win_rate : ℚ := 0
  crowns_earned : Nat := 0
  crowns_lost : Nat := 0
  max_wins : Option Nat := none
  current_streak : Nat := 0
  best_streak : Nat := 0
  progress : EventProgress := .in_progress
deriving DecidableEq, Repr

/-- `EventDeck` of models/event_deck.py.  The untyped `event_rules` dict is
carried as an opaque list of key-value string pairs; no modelled operation
reads it. -/
structure EventDeckM where
  event_id : PyStr
  player_tag : PyStr
  event_name : PyStr
  event_type : EventType
  start_time : PDateTime
  end_time : Option PDateTime
  deck : DeckM
  performance : EventPerformance
  battles : List BattleRecord := []
  notes : Option PyStr := none
deriving DecidableEq, Repr

/-- The Python string literal `win`. -/
def winS : PyStr := codes (r"win")

/-- The Python string literal `loss`. -/
def lossS : PyStr := codes (r"loss")

/-- The status `EventDeck._update_progress` assigns.  The truthiness test
`if self.performance.max_wins:` is false both for `None` and for `0`;
`datetime.now()` is the parameter `now`, and datetime comparison is
comparison of the packed keys. -/
def progressCap (p : EventPerformance) : EventProgress :=
  match p.max_wins with
  | some m =>
    if m ≠ 0 then
      if m ≤ p.wins then EventProgress.completed
      else if 3 ≤ p.losses then EventProgress.eliminated
      else p.progress
    else p.progress
  | none => p.progress

/-- The second half of `_update_progress`: complete an in-progress session
whose end time has passed. -/
def progressAfter (now : PDateTime) (d : EventDeckM) : EventProgress :=
  match d.end_time with
  | some et =>
    if et.key < now.key ∧ progressCap d.performance = .in_progress then
      EventProgress.completed
    else progressCap d.performance
  | none => progressCap d.performance

/-- `EventDeck._update_progress`: the method only ever reassigns the
`progress` field. -/
def updateProgress (now : PDateTime) (d : EventDeckM) : EventDeckM :=
  { d with performance := { d.performance with progress := progressAfter now d } }

/-- The counter updates of `EventDeck.add_battle` (everything before the
final `_update_progress` call). -/
def battleCounters (b : BattleRecord) (p : EventPerformance) : EventPerformance :=
  let p :=
    if b.result == winS then
      { p with wins := p.wins + 1
             , crowns_earned := p.crowns_earned + b.crowns
             , current_streak := p.current_streak + 1
             , best_streak := max p.best_streak (p.current_streak + 1) }
    else
      { p with losses := p.losses + 1
             , crowns_lost := p.crowns_lost + b.opponent_crowns
             , current_streak := 0 }
  let total := p.wins + p.losses
  if 0 < total then { p with win_rate := (p.wins : ℚ) / (total : ℚ) } else p

/-- The session state after the counter updates of `add_battle`, before the
final `_update_progress` call. -/
def midDeck (b : BattleRecord) (d : EventDeckM) : EventDeckM :=
  { d with battles := d.battles ++ [b], performance := battleCounters b d.performance }

/-- `EventDeck.add_battle`. -/
def addBattle (now : PDateTime) (b : BattleRecord) (d : EventDeckM) : EventDeckM :=
  updateProgress now (midDeck b d)

/-- Appending a sequence of battles through `add_battle`; each step carries
the wall-clock instant of its `datetime.now()` call. -/
def replayBattles (d : EventDeckM) (steps : List (PDateTime × BattleRecord)) : EventDeckM :=
  steps.foldl (fun d s => addBattle s.1 s.2 d) d

/-- `BattleLogParser._create_battle_record` (`now` is the wall clock the
unparseable-timestamp fallback would read). -/
def createBattleRecord (now : PDateTime) (b : Battle) : Option BattleRecord :=
  match b.team, b.opponent with
  | t0 :: _, o0 :: _ =>
    let result := if o0.crowns < t0.crowns then winS else lossS
    some
      { timestamp := parseOr now b.battleTime
      , opponent_tag := o0.tag
      , opponent_name := o0.pname
      , result := result
      , crowns := t0.crowns
      , opponent_crowns := o0.crowns
      , trophy_change := t0.trophyChange
      , battle_mode := some b.gameModeName }
  | _, _ => none

/-- `EventDeckCollection` of models/event_deck.py. -/
structure EventDeckCollection where
  player_tag : PyStr
  decks : List EventDeckM := []
  last_updated : PDateTime
deriving DecidableEq, Repr

/-- The body of `EventDeckCollection.add_deck`: replace the first entry
with the same event id in place, else append. -/
def addDeckList (deck : EventDeckM) : List EventDeckM → List EventDeckM
  | [] => [deck]
  | e :: t => if e.event_id = deck.event_id then deck :: t else e :: addDeckList deck t

/-- `EventDeckCollection.add_deck` (also bumps `last_updated`). -/
def addDeck (now : PDateTime) (deck : EventDeckM) (c : EventDeckCollection) :
    EventDeckCollection :=
  { c with decks := addDeckList deck c.decks, last_updated := now }

/-- The three storage subdirectories of `EventDeckManager`. -/
inductive Bucket where
  | challenges | tournaments | special_events
deriving DecidableEq, Repr

/-- The subdirectory `save_event_deck` writes a deck into (everything that
is not a tournament or a special event lands in `challenges`). -/
def bucketOf : EventType → Bucket
  | .tournament => .tournaments
  | .special_event => .special_events
  | _ => .challenges

/-- The per-file filter of `get_event_decks`: the deck was loaded because
it sits in a globbed subdirectory (the requested category maps to the same
bucket), and it survives the `days_back` cutoff.  The `if days_back:` guard
of the source is false for `None` and for `0`. -/
def keepPred (etype : Option EventType) (daysBack : Option Nat) (now : PDateTime)
    (d : EventDeckM) : Bool :=
  (match etype with
   | none => true
   | some e => bucketOf d.event_type == bucketOf e)
  && (match daysBack with
      | none => true
      | some n =>
        if n = 0 then true
        else !decide ((d.start_time.toSec : Int) < (now.toSec : Int) - n * 86400))

/-- Newest-first comparison on session start times
(`decks.sort(key=start_time, reverse=True)`). -/
def startLeDesc (a b : EventDeckM) : Prop := b.start_time.key ≤ a.start_time.key

instance startLeDescDec : DecidableRel startLeDesc := fun a b => Nat.decLe _ _

instance startLeDescTotal : IsTotal EventDeckM startLeDesc :=
  ⟨fun a b => Nat.le_total b.start_time.key a.start_time.key⟩

instance startLeDescTrans : IsTrans EventDeckM startLeDesc :=
  ⟨fun _ _ _ h1 h2 => le_trans h2 h1⟩

/-- `EventDeckManager.get_event_decks` over a store of previously saved
decks (`stored` lists the decks on disk; each one sits in the bucket
`save_event_deck` chose from its event type).  The `if limit:` guard of the
source is false for `None` and for `0`. -/
def getEventDecks (stored : List EventDeckM) (etype : Option EventType)
    (daysBack : Option Nat) (lim : Option Nat) (now : PDateTime) : List EventDeckM :=
  let sorted := List.insertionSort startLeDesc
    (stored.filter (keepPred etype daysBack now))
  match lim with
  | none => sorted
  | some n => if n = 0 then sorted else sorted.take n

/-- Python `d[k] = d.get(k, 0) + v` on a counter dict. -/
def bump (m : List (PyStr × Nat)) (k : PyStr) (v : Nat) : List (PyStr × Nat) :=
  dinsert m k (((List.lookup k m).getD 0) + v)

/-- The `card_usage` dict built by `analyze_event_decks`: one increment per
card occurrence in each deck. -/
def cardUsage (decks : List EventDeckM) : List (PyStr × Nat) :=
  decks.foldl (fun m d => d.deck.cards.foldl (fun m c => bump m c.name 1) m) []

/-- The `card_wins` dict of `analyze_event_decks`: every card occurrence of
a deck receives that whole deck's win count. -/
def cardWins (decks : List EventDeckM) : List (PyStr × Nat) :=
  decks.foldl
    (fun m d => d.deck.cards.foldl (fun m c => bump m c.name d.performance.wins) m) []

/-- The `card_losses` dict of `analyze_event_decks`. -/
def cardLosses (decks : List EventDeckM) : List (PyStr × Nat) :=
  decks.foldl
    (fun m d => d.deck.cards.foldl (fun m c => bump m c.name d.performance.losses) m) []

/-- The `card_win_rates` dict of `analyze_event_decks`: iterate the keys of
`card_usage`, adding an entry only when the card has a positive battle
count. -/
def cardWinRates (decks : List EventDeckM) : List (PyStr × ℚ) :=
  (cardUsage decks).foldl
    (fun m e =>
      let w := (List.lookup e.1 (cardWins decks)).getD 0
      let l := (List.lookup e.1 (cardLosses decks)).getD 0
      if 0 < w + l then dinsert m e.1 ((w : ℚ) / ((w : ℚ) + (l : ℚ))) else m)
    []

/-- Occurrences of a card name in a deck (a name can repeat). -/
def countName (name : PyStr) (d : EventDeckM) : Nat :=
  d.deck.cards.countP (fun c => c.name == name)

/-- Specification-side sum: wins contributed to a card across every deck
containing it, once per occurrence. -/
def sumWinsFor (decks : List EventDeckM) (name : PyStr) : Nat :=
  (decks.map (fun d => countName name d * d.performance.wins)).sum

/-- Specification-side sum of contributed losses. -/
def sumLossesFor (decks : List EventDeckM) (name : PyStr) : Nat :=
  (decks.map (fun d => countName name d * d.performance.losses)).sum

/-- The card appears in some deck of the analyzed set. -/
def appearsB (decks : List EventDeckM) (name : PyStr) : Bool :=
  decks.any (fun d => d.deck.cards.any (fun c => c.name == name))

/-- Wins recorded over a replayed step sequence. -/
def winCountSteps (steps : List (PDateTime × BattleRecord)) : Nat :=
  steps.countP (fun s => s.2.result == winS)

/-- Losses recorded over a replayed step sequence (any non-win result). -/
def lossCountSteps (steps : List (PDateTime × BattleRecord)) : Nat :=
  steps.countP (fun s => !(s.2.result == winS))

/-- The status the state machine assigns from final counters, for a session
with a truthy win cap and no end time. -/
def statusOf (m w l : Nat) : EventProgress :=
  if m ≤ w then .completed else if 3 ≤ l then .eliminated else .in_progress

lemma battleCounters_win (b : BattleRecord) (p : EventPerformance)
    (h : b.result = winS) :
    battleCounters b p =
      { p with wins := p.wins + 1
             , crowns_earned := p.crowns_earned + b.crowns
             , current_streak := p.current_streak + 1
             , best_streak := max p.best_streak (p.current_streak + 1)
             , win_rate := ((p.wins + 1 : Nat) : ℚ) / ((p.wins + 1 + p.losses : Nat) : ℚ) } := by
  have hb : (b.result == winS) = true := by simp [h]
  have hpos : 0 < p.wins + 1 + p.losses := by omega
  simp [battleCounters, hb, hpos]

lemma battleCounters_loss (b : BattleRecord) (p : EventPerformance)
    (h : b.result ≠ winS) :
    battleCounters b p =
      { p with losses := p.losses + 1
             , crowns_lost := p.crowns_lost + b.opponent_crowns
             , current_streak := 0
             , win_rate := ((p.wins : Nat) : ℚ) / ((p.wins + (p.losses + 1) : Nat) : ℚ) } := by
  have hb : (b.result == winS) = false := by simp [h]
  have hpos : 0 < p.wins + (p.losses + 1) := by omega
  simp [battleCounters, hb, hpos]

lemma battleCounters_progress (b : BattleRecord) (p : EventPerformance) :
    (battleCounters b p).progress = p.progress := by
  by_cases h : b.result = winS
  · rw [battleCounters_win b p h]
  · rw [battleCounters_loss b p h]

lemma battleCounters_max_wins (b : BattleRecord) (p : EventPerformance) :
    (battleCounters b p).max_wins = p.max_wins := by
  by_cases h : b.result = winS
  · rw [battleCounters_win b p h]
  · rw [battleCounters_loss b p h]

lemma battleCounters_wins (b : BattleRecord) (p : EventPerformance) :
    (battleCounters b p).wins = p.wins + (if b.result == winS then 1 else 0) := by
  by_cases h : b.result = winS
  · rw [battleCounters_win b p h]; simp [h]
  · rw [battleCounters_loss b p h]; simp [h]

lemma battleCounters_losses (b : BattleRecord) (p : EventPerformance) :
    (battleCounters b p).losses = p.losses + (if b.result == winS then 0 else 1) := by
  by_cases h : b.result = winS
  · rw [battleCounters_win b p h]; simp [h]
  · rw [battleCounters_loss b p h]; simp [h]

lemma addBattle_end_time (now : PDateTime) (b : BattleRecord) (d : EventDeckM) :
    (addBattle now b d).end_time = d.end_time := rfl

lemma addBattle_performance (now : PDateTime) (b : BattleRecord) (d : EventDeckM) :
    (addBattle now b d).performance =
      { battleCounters b d.performance with
          progress := progressAfter now (midDeck b d) } := rfl

lemma addBattle_progress (now : PDateTime) (b : BattleRecord) (d : EventDeckM) :
    (addBattle now b d).performance.progress = progressAfter now (midDeck b d) := rfl

lemma midDeck_end_time (b : BattleRecord) (d : EventDeckM) :
    (midDeck b d).end_time = d.end_time := rfl

lemma midDeck_performance (b : BattleRecord) (d : EventDeckM) :
    (midDeck b d).performance = battleCounters b d.performance := rfl

/-- C4.  `recordBattle` increments exactly one of wins and losses, updates
streaks and crowns as described, and leaves `win_rate = wins/(wins+losses)`. -/
theorem c4_record_battle (now : PDateTime) (b : BattleRecord) (d : EventDeckM) :
    ((addBattle now b d).performance.wins =
        d.performance.wins + (if b.result = winS then 1 else 0))
    ∧ ((addBattle now b d).performance.losses =
        d.performance.losses + (if b.result = winS then 0 else 1))
    ∧ (b.result = winS →
        (addBattle now b d).performance.current_streak = d.performance.current_streak + 1
        ∧ (addBattle now b d).performance.best_streak =
            max d.performance.best_streak (d.performance.current_streak + 1)
        ∧ (addBattle now b d).performance.crowns_earned =
            d.performance.crowns_earned + b.crowns
        ∧ (addBattle now b d).performance.crowns_lost = d.performance.crowns_lost)
    ∧ (b.result ≠ winS →
        (addBattle now b d).performance.current_streak = 0
        ∧ (addBattle now b d).performance.best_streak = d.performance.best_streak
        ∧ (addBattle now b d).performance.crowns_lost =
            d.performance.crowns_lost + b.opponent_crowns
        ∧ (addBattle now b d).performance.crowns_earned = d.performance.crowns_earned)
    ∧ (addBattle now b d).performance.win_rate =
        (((addBattle now b d).performance.wins : Nat) : ℚ)
          / (((addBattle now b d).performance.wins
              + (addBattle now b d).performance.losses : Nat) : ℚ) := by
  rw [addBattle_performance]
  by_cases h : b.result = winS
  · rw [battleCounters_win b d.performance h]
    simp [h]
  · rw [battleCounters_loss b d.performance h]
    simp [h]

/-- C4 witness: the theorem applied at a concrete winning battle. -/
theorem c4_record_battle_witness :
    (addBattle ⟨2024, 1, 1, 9, 0, 0⟩
      { timestamp := ⟨2024, 1, 1, 9, 0, 0⟩, opponent_tag := codes (r"#O"),
        opponent_name := none, result := codes (r"win"), crowns := 2,
        opponent_crowns := 1, trophy_change := none, battle_mode := none }
      { event_id := codes (r"e"), player_tag := codes (r"#P"),
        event_name := codes (r"E"), event_type := .challenge,
        start_time := ⟨2024, 1, 1, 9, 0, 0⟩, end_time := none,
        deck := ⟨[], 0⟩, performance := {}, battles := [], notes := none
        }).performance.current_streak = 0 + 1 := by
  have h := c4_record_battle ⟨2024, 1, 1, 9, 0, 0⟩
    { timestamp := ⟨2024, 1, 1, 9, 0, 0⟩, opponent_tag := codes (r"#O"),
      opponent_name := none, result := codes (r"win"), crowns := 2,
      opponent_crowns := 1, trophy_change := none, battle_mode := none }
    { event_id := codes (r"e"), player_tag := codes (r"#P"),
      event_name := codes (r"E"), event_type := .challenge,
      start_time := ⟨2024, 1, 1, 9, 0, 0⟩, end_time := none,
      deck := ⟨[], 0⟩, performance := {}, battles := [], notes := none }
  exact (h.2.2.1 (by decide)).1

/-- Shared fixture instant. -/
def t0 : PDateTime := ⟨2024, 1, 1, 9, 0, 0⟩

/-- Fixture: a lost battle record. -/
def lossRec : BattleRecord :=
  { timestamp := t0, opponent_tag := codes (r"#OPP"), opponent_name := none,
    result := lossS, crowns := 0, opponent_crowns := 3, trophy_change := none,
    battle_mode := none }

/-- Fixture: a won battle record. -/
def winRec : BattleRecord :=
  { lossRec with result := winS, crowns := 3, opponent_crowns := 0 }

/-- Fixture: a freshly built session with the given `max_wins`. -/
def baseDeck (mw : Option Nat) : EventDeckM :=
  { event_id := codes (r"test_20240101_1"), player_tag := codes (r"#P1"),
    event_name := codes (r"Test"), event_type := .challenge, start_time := t0,
    end_time := none, deck := ⟨[], 0⟩, performance := { max_wins := mw },
    battles := [], notes := none }

lemma progressCap_ne_in_progress (p : EventPerformance)
    (h : p.progress ≠ .in_progress) : progressCap p ≠ .in_progress := by
  unfold progressCap
  cases p.max_wins
  · exact h
  · dsimp only; split_ifs <;> simp_all

lemma progressCap_completed (p : EventPerformance) (m : Nat)
    (hm : p.max_wins = some m) (h0 : m ≠ 0) (hw : m ≤ p.wins) :
    progressCap p = .completed := by
  unfold progressCap
  rw [hm]
  simp [h0, hw]

lemma progressAfter_ne_in_progress (now : PDateTime) (d : EventDeckM)
    (h : d.performance.progress ≠ .in_progress) :
    progressAfter now d ≠ .in_progress := by
  have h1 := progressCap_ne_in_progress d.performance h
  unfold progressAfter
  cases d.end_time
  · exact h1
  · dsimp only; split_ifs <;> simp_all

lemma progressAfter_completed (now : PDateTime) (d : EventDeckM) (m : Nat)
    (hm : d.performance.max_wins = some m) (h0 : m ≠ 0)
    (hw : m ≤ d.performance.wins) :
    progressAfter now d = .completed := by
  have h1 := progressCap_completed d.performance m hm h0 hw
  unfold progressAfter
  cases d.end_time
  · exact h1
  · dsimp only; split_ifs <;> simp_all

lemma replay_ne_in_progress (steps : List (PDateTime × BattleRecord)) :
    ∀ d : EventDeckM, d.performance.progress ≠ .in_progress →
      (replayBattles d steps).performance.progress ≠ .in_progress := by
  induction steps with
  | nil => intro d h; exact h
  | cons s steps ih =>
    intro d h
    show (replayBattles (addBattle s.1 s.2 d) steps).performance.progress ≠ _
    apply ih
    rw [addBattle_performance]
    exact progressAfter_ne_in_progress _ _
      (by rw [midDeck_performance, battleCounters_progress]; exact h)

lemma replay_completed_stays (steps : List (PDateTime × BattleRecord)) :
    ∀ (d : EventDeckM) (m : Nat), d.performance.max_wins = some m → m ≠ 0 →
      m ≤ d.performance.wins → d.performance.progress = .completed →
      (replayBattles d steps).performance.progress = .completed := by
  induction steps with
  | nil => intro d m _ _ _ hp; exact hp
  | cons s steps ih =>
    intro d m hm h0 hw hp
    show (replayBattles (addBattle s.1 s.2 d) steps).performance.progress = _
    have hm' : (addBattle s.1 s.2 d).performance.max_wins = some m := by
      rw [addBattle_performance]
      show (battleCounters s.2 d.performance).max_wins = some m
      rw [battleCounters_max_wins]; exact hm
    have hw' : m ≤ (addBattle s.1 s.2 d).performance.wins := by
      rw [addBattle_performance]
      show m ≤ (battleCounters s.2 d.performance).wins
      rw [battleCounters_wins]; omega
    refine ih _ m hm' h0 hw' ?_
    rw [addBattle_performance]
    refine progressAfter_completed _ _ m ?_ h0 ?_
    · show (battleCounters s.2 d.performance).max_wins = some m
      rw [battleCounters_max_wins]; exact hm
    · show m ≤ (battleCounters s.2 d.performance).wins
      rw [battleCounters_wins]; omega

/-- C2 counterexample: a session eliminated at three losses becomes
`completed` once appended wins reach the cap, so an eliminated session does
not keep its status under further battles. -/
theorem c2_counterexample_elim_to_completed :
    (replayBattles (baseDeck (some 10))
        (List.replicate 3 (t0, lossRec))).performance.progress = .eliminated
    ∧ (replayBattles (baseDeck (some 10))
        (List.replicate 3 (t0, lossRec) ++ List.replicate 10 (t0, winRec))
       ).performance.progress = .completed := by
  constructor <;> decide

/-- C2 amended: recording further battles never returns a `completed` or
`eliminated` session to `in_progress`; and once wins have reached a truthy
`max_wins` cap (so the session is `completed` by the win cap), the status
stays `completed` under every further battle sequence.  (An `eliminated`
session can still become `completed` when appended wins reach the cap, and
a session completed by end-time expiry can still become `eliminated`.) -/
theorem c2_amended_no_return (d : EventDeckM) (steps : List (PDateTime × BattleRecord)) :
    (d.performance.progress ≠ .in_progress →
      (replayBattles d steps).performance.progress ≠ .in_progress)
    ∧ (∀ m : Nat, d.performance.max_wins = some m → m ≠ 0 →
        m ≤ d.performance.wins → d.performance.progress = .completed →
        (replayBattles d steps).performance.progress = .completed) :=
  ⟨replay_ne_in_progress steps d,
   fun m hm h0 hw hp => replay_completed_stays steps d m hm h0 hw hp⟩

/-- C2 witness: the amended theorem applied to a concrete completed session. -/
theorem c2_amended_no_return_witness :
    (replayBattles
        (replayBattles (baseDeck (some 2)) (List.replicate 2 (t0, winRec)))
        [(t0, lossRec), (t0, lossRec), (t0, lossRec)]).performance.progress
      = .completed :=
  (c2_amended_no_return _ _).2 2 (by decide) (by decide) (by decide) (by decide)

lemma progressAfter_statusOf (now : PDateTime) (d : EventDeckM) (m w0 l0 : Nat)
    (he : d.end_time = none) (hm : d.performance.max_wins = some m) (h0 : m ≠ 0)
    (hw0 : w0 ≤ d.performance.wins) (hl0 : l0 ≤ d.performance.losses)
    (hp : d.performance.progress = statusOf m w0 l0) :
    progressAfter now d = statusOf m d.performance.wins d.performance.losses := by
  unfold progressAfter
  rw [he]
  unfold progressCap
  rw [hm]
  simp only [h0, ne_eq, not_false_iff, if_true]
  unfold statusOf
  split_ifs with h1 h2
  · rfl
  · rfl
  · rw [hp]; unfold statusOf; split_ifs <;> first | rfl | omega

lemma progressAfter_falsy_cap (now : PDateTime) (d : EventDeckM)
    (he : d.end_time = none)
    (hm : d.performance.max_wins = none ∨ d.performance.max_wins = some 0) :
    progressAfter now d = d.performance.progress := by
  unfold progressAfter
  rw [he]
  unfold progressCap
  rcases hm with hm | hm <;> rw [hm]
  simp

lemma replay_statusOf (steps : List (PDateTime × BattleRecord)) :
    ∀ (d : EventDeckM) (m : Nat), d.end_time = none →
      d.performance.max_wins = some m → m ≠ 0 →
      d.performance.progress =
        statusOf m d.performance.wins d.performance.losses →
      (replayBattles d steps).performance.progress =
        statusOf m (d.performance.wins + winCountSteps steps)
          (d.performance.losses + lossCountSteps steps) := by
  induction steps with
  | nil =>
    intro d m _ _ _ hp
    simpa [winCountSteps, lossCountSteps] using hp
  | cons s steps ih =>
    intro d m he hm h0 hp
    show (replayBattles (addBattle s.1 s.2 d) steps).performance.progress = _
    have hbw := battleCounters_wins s.2 d.performance
    have hbl := battleCounters_losses s.2 d.performance
    have hprog : (addBattle s.1 s.2 d).performance.progress =
        statusOf m (battleCounters s.2 d.performance).wins
          (battleCounters s.2 d.performance).losses := by
      rw [addBattle_progress]
      have := progressAfter_statusOf s.1 (midDeck s.2 d) m
        d.performance.wins d.performance.losses
        (by rw [midDeck_end_time]; exact he)
        (by rw [midDeck_performance, battleCounters_max_wins]; exact hm)
        h0
        (by rw [midDeck_performance, hbw]; omega)
        (by rw [midDeck_performance, hbl]; omega)
        (by rw [midDeck_performance, battleCounters_progress]; exact hp)
      rw [this, midDeck_performance]
    have hrec := ih (addBattle s.1 s.2 d) m
      ((addBattle_end_time s.1 s.2 d) ▸ he)
      (by rw [addBattle_performance]
          show (battleCounters s.2 d.performance).max_wins = some m
          rw [battleCounters_max_wins]; exact hm)
      h0
      (by rw [hprog]; exact rfl)
    rw [hrec]
    have hw : (addBattle s.1 s.2 d).performance.wins + winCountSteps steps =
        d.performance.wins + winCountSteps (s :: steps) := by
      have : (addBattle s.1 s.2 d).performance.wins =
          (battleCounters s.2 d.performance).wins := rfl
      rw [this, hbw]
      unfold winCountSteps
      rw [List.countP_cons]
      by_cases hres : (s.2.result == winS) = true <;> simp [hres] <;> omega
    have hl : (addBattle s.1 s.2 d).performance.losses + lossCountSteps steps =
        d.performance.losses + lossCountSteps (s :: steps) := by
      have : (addBattle s.1 s.2 d).performance.losses =
          (battleCounters s.2 d.performance).losses := rfl
      rw [this, hbl]
      unfold lossCountSteps
      rw [List.countP_cons]
      by_cases hres : (s.2.result == winS) = true <;> simp [hres] <;> omega
    rw [hw, hl]

lemma replay_falsy_cap (steps : List (PDateTime × BattleRecord)) :
    ∀ d : EventDeckM, d.end_time = none →
      (d.performance.max_wins = none ∨ d.performance.max_wins = some 0) →
      (replayBattles d steps).performance.progress = d.performance.progress := by
  induction steps with
  | nil => intro d _ _; rfl
  | cons s steps ih =>
    intro d he hm
    show (replayBattles (addBattle s.1 s.2 d) steps).performance.progress = _
    have hm' : (addBattle s.1 s.2 d).performance.max_wins = d.performance.max_wins := by
      rw [addBattle_performance]
      show (battleCounters s.2 d.performance).max_wins = _
      rw [battleCounters_max_wins]
    rw [ih (addBattle s.1 s.2 d) ((addBattle_end_time s.1 s.2 d) ▸ he) (hm' ▸ hm)]
    rw [addBattle_progress]
    rw [progressAfter_falsy_cap s.1 (midDeck s.2 d)
      (by rw [midDeck_end_time]; exact he)
      (by rw [midDeck_performance, battleCounters_max_wins]; exact hm)]
    rw [midDeck_performance, battleCounters_progress]

/-- C3 counterexample: with `max_wins` unset, a fresh session that records
three losses stays `in_progress` instead of becoming `eliminated`. -/
theorem c3_counterexample_no_cap_no_elimination :
    (replayBattles (baseDeck none)
        (List.replicate 3 (t0, lossRec))).performance.losses = 3
    ∧ (replayBattles (baseDeck none)
        (List.replicate 3 (t0, lossRec))).performance.progress = .in_progress := by
  constructor <;> decide

/-- C3 amended: for a fresh session with no end time, when `max_wins` is a
nonzero cap the final status is `completed` iff total wins reach the cap,
`eliminated` iff wins fall short and losses reach 3, and `in_progress`
otherwise; when the cap is unset (or zero) battle recording never changes
the status at all. -/
theorem c3_amended_elimination (d : EventDeckM) (steps : List (PDateTime × BattleRecord)) :
    (∀ m : Nat, d.end_time = none → d.performance.max_wins = some m → m ≠ 0 →
      d.performance.wins = 0 → d.performance.losses = 0 →
      d.performance.progress = .in_progress →
      (replayBattles d steps).performance.progress =
        statusOf m (winCountSteps steps) (lossCountSteps steps))
    ∧ (d.end_time = none →
      (d.performance.max_wins = none ∨ d.performance.max_wins = some 0) →
      (replayBattles d steps).performance.progress = d.performance.progress) := by
  constructor
  · intro m he hm h0 hw hl hp
    have := replay_statusOf steps d m he hm h0
      (by rw [hp, hw, hl]; unfold statusOf; split_ifs <;> first | rfl | omega)
    rw [this, hw, hl]
    simp
  · intro he hm
    exact replay_falsy_cap steps d he hm

/-- C3 witness: the amended theorem at a concrete capped session with three
recorded losses, which the state machine eliminates. -/
theorem c3_amended_elimination_witness :
    (replayBattles (baseDeck (some 10))
        (List.replicate 3 (t0, lossRec))).performance.progress =
      statusOf 10 (winCountSteps (List.replicate 3 (t0, lossRec)))
        (lossCountSteps (List.replicate 3 (t0, lossRec))) :=
  (c3_amended_elimination (baseDeck (some 10)) _).1 10 rfl rfl
    (by decide) rfl rfl rfl

lemma addDeckList_mem (deck : EventDeckM) :
    ∀ l : List EventDeckM, deck.event_id ∈ l.map (fun d => d.event_id) →
      (addDeckList deck l).map (fun d => d.event_id) = l.map (fun d => d.event_id)
      ∧ deck ∈ addDeckList deck l
      ∧ (addDeckList deck l).length = l.length := by
  intro l
  induction l with
  | nil => intro h; simp at h
  | cons e t ih =>
    intro h
    unfold addDeckList
    split_ifs with hid
    · refine ⟨?_, by simp, by simp⟩
      simp [hid]
    · have hmem : deck.event_id ∈ t.map (fun d => d.event_id) := by
        rcases (List.mem_cons.mp h) with h1 | h1
        · exact absurd h1.symm hid
        · exact h1
      obtain ⟨h1, h2, h3⟩ := ih hmem
      exact ⟨by simp [h1], by simp [h2], by simp [h3]⟩

lemma addDeckList_not_mem (deck : EventDeckM) :
    ∀ l : List EventDeckM, deck.event_id ∉ l.map (fun d => d.event_id) →
      addDeckList deck l = l ++ [deck] := by
  intro l
  induction l with
  | nil => intro _; rfl
  | cons e t ih =>
    intro h
    unfold addDeckList
    split_ifs with hid
    · exact absurd (by simp [hid]) h
    · rw [ih (fun hc => h (by simp [hc]))]
      simp

/-- C5.  Upserting into a collection: an existing identity is replaced in
place (same identity list, same size, new content present); a fresh
identity is appended; and identity uniqueness of the collection is
preserved. -/
theorem c5_upsert_identity (now : PDateTime) (deck : EventDeckM)
    (c : EventDeckCollection) :
    (deck.event_id ∈ c.decks.map (fun d => d.event_id) →
      (addDeck now deck c).decks.map (fun d => d.event_id) =
          c.decks.map (fun d => d.event_id)
      ∧ (addDeck now deck c).decks.length = c.decks.length
      ∧ deck ∈ (addDeck now deck c).decks)
    ∧ (deck.event_id ∉ c.decks.map (fun d => d.event_id) →
      (addDeck now deck c).decks = c.decks ++ [deck])
    ∧ ((c.decks.map (fun d => d.event_id)).Nodup →
      ((addDeck now deck c).decks.map (fun d => d.event_id)).Nodup) := by
  refine ⟨?_, ?_, ?_⟩
  · intro h
    obtain ⟨h1, h2, h3⟩ := addDeckList_mem deck c.decks h
    exact ⟨h1, h3, h2⟩
  · intro h
    exact addDeckList_not_mem deck c.decks h
  · intro hnd
    by_cases h : deck.event_id ∈ c.decks.map (fun d => d.event_id)
    · show ((addDeckList deck c.decks).map (fun d => d.event_id)).Nodup
      rw [(addDeckList_mem deck c.decks h).1]
      exact hnd
    · show ((addDeckList deck c.decks).map (fun d => d.event_id)).Nodup
      rw [addDeckList_not_mem deck c.decks h]
      simp [List.nodup_append, hnd, h]

/-- C5 witness: a fresh identity is appended to a concrete collection. -/
theorem c5_upsert_identity_witness :
    (addDeck t0 (baseDeck none)
        ⟨codes (r"#P1"), [{ baseDeck none with event_id := codes (r"other") }], t0⟩).decks
      = [{ baseDeck none with event_id := codes (r"other") }] ++ [baseDeck none] :=
  (c5_upsert_identity t0 (baseDeck none)
      ⟨codes (r"#P1"), [{ baseDeck none with event_id := codes (r"other") }], t0⟩).2.1
    (by decide)

/-- C10.  A battle is recorded as a win exactly when own crowns strictly
exceed opponent crowns (a draw is a loss), and recording any non-win result
counts a loss and the opponent crowns. -/
theorem c10_draw_is_loss (now : PDateTime) (b : Battle) (tp op : SidePlayer)
    (ts os : List SidePlayer) (hteam : b.team = tp :: ts)
    (hopp : b.opponent = op :: os) :
    (∃ r, createBattleRecord now b = some r
      ∧ (r.result = winS ↔ op.crowns < tp.crowns)
      ∧ (tp.crowns = op.crowns → r.result = lossS))
    ∧ (∀ (d : EventDeckM) (nw : PDateTime) (br : BattleRecord), br.result ≠ winS →
        (addBattle nw br d).performance.losses = d.performance.losses + 1
        ∧ (addBattle nw br d).performance.crowns_lost =
            d.performance.crowns_lost + br.opponent_crowns
        ∧ (addBattle nw br d).performance.wins = d.performance.wins) := by
  constructor
  · simp only [createBattleRecord, hteam, hopp]
    refine ⟨_, rfl, ?_, ?_⟩
    · by_cases hc : op.crowns < tp.crowns <;> simp [hc, winS, lossS, codes]
    · intro hd
      have hc : ¬ op.crowns < tp.crowns := by omega
      simp [hc]
  · intro d nw br hbr
    have h1 : (addBattle nw br d).performance.losses =
        (battleCounters br d.performance).losses := rfl
    have h2 : (addBattle nw br d).performance.crowns_lost =
        (battleCounters br d.performance).crowns_lost := rfl
    have h3 : (addBattle nw br d).performance.wins =
        (battleCounters br d.performance).wins := rfl
    rw [h1, h2, h3, battleCounters_loss br d.performance hbr]
    exact ⟨rfl, rfl, rfl⟩

/-- C10 witness: a concrete drawn battle (one crown each) is recorded as a
loss. -/
theorem c10_draw_is_loss_witness :
    ∃ r, createBattleRecord t0
        { battleTime := codes (r"20240101T090000.000Z"),
          gameModeName := codes (r"Classic Challenge"),
          team := [{ tag := codes (r"#P1"), pname := none, cards := [],
                     crowns := 1, trophyChange := none }],
          opponent := [{ tag := codes (r"#P2"), pname := none, cards := [],
                         crowns := 1, trophyChange := none }],
          isLadderBattle := true } = some r ∧ r.result = lossS :=
  have h := c10_draw_is_loss t0
    { battleTime := codes (r"20240101T090000.000Z"),
      gameModeName := codes (r"Classic Challenge"),
      team := [{ tag := codes (r"#P1"), pname := none, cards := [],
                 crowns := 1, trophyChange := none }],
      opponent := [{ tag := codes (r"#P2"), pname := none, cards := [],
                     crowns := 1, trophyChange := none }],
      isLadderBattle := true }
    { tag := codes (r"#P1"), pname := none, cards := [], crowns := 1,
      trophyChange := none }
    { tag := codes (r"#P2"), pname := none, cards := [], crowns := 1,
      trophyChange := none } [] [] rfl rfl
  match h.1 with
  | ⟨r, hr, _, hdraw⟩ => ⟨r, hr, hdraw rfl⟩

/-- Fixture event data for the identity claims: a nonempty deck roster. -/
def c8Ev : EventData :=
  { event_type := .challenge, event_name := codes (r"Classic Challenge"),
    battle_mode := codes (r"Classic Challenge"),
    deck_cards := [codes (r"Giant"), codes (r"Archers")] }

/-- Fixture battle carrying only a canonical timestamp. -/
def c8Battle : Battle :=
  { battleTime := codes (r"20241208T123456.000Z"),
    gameModeName := codes (r"Classic Challenge"), team := [], opponent := [],
    isLadderBattle := true }

/-- C8.  The derived event identity is not a function of the input alone:
its numeric suffix reads the process-seeded Python string hash, so two
processes whose seeded hash functions differ on the sorted deck tuple
derive different identities from identical input. -/
theorem c8_identity_seed_dependent :
    genEventId (fun _ => (1 : Int)) c8Ev c8Battle
      ≠ genEventId (fun _ => (2 : Int)) c8Ev c8Battle := by decide

lemma dinsert_cons_self {V : Type} (k : PyStr) (v w : V) (t : List (PyStr × V)) :
    dinsert ((k, v) :: t) k w = (k, w) :: t := by
  simp [dinsert]

/-- Fixture: one eight-card roster (all slots absent, distinct names). -/
def c1Cards : List RawCard :=
  [ { name := codes (r"Giant"), id := 1, level := 11, maxLevel := 14,
      rarity := codes (r"common"), elixirCost := 5, slot := none }
  , { name := codes (r"Archers"), id := 2, level := 11, maxLevel := 14,
      rarity := codes (r"common"), elixirCost := 3, slot := none }
  , { name := codes (r"Knight"), id := 3, level := 11, maxLevel := 14,
      rarity := codes (r"common"), elixirCost := 3, slot := none }
  , { name := codes (r"Musketeer"), id := 4, level := 11, maxLevel := 14,
      rarity := codes (r"rare"), elixirCost := 4, slot := none }
  , { name := codes (r"Fireball"), id := 5, level := 11, maxLevel := 14,
      rarity := codes (r"rare"), elixirCost := 4, slot := none }
  , { name := codes (r"Zap"), id := 6, level := 11, maxLevel := 14,
      rarity := codes (r"common"), elixirCost := 2, slot := none }
  , { name := codes (r"Cannon"), id := 7, level := 11, maxLevel := 14,
      rarity := codes (r"common"), elixirCost := 3, slot := none }
  , { name := codes (r"Skeletons"), id := 8, level := 11, maxLevel := 14,
      rarity := codes (r"common"), elixirCost := 1, slot := none } ]

/-- Fixture: the first qualifying battle, 09:00. -/
def c1b1 : Battle :=
  { battleTime := codes (r"20240101T090000.000Z"),
    gameModeName := codes (r"Grand Challenge"),
    team := [{ tag := codes (r"#ME"), pname := none, cards := c1Cards,
               crowns := 1, trophyChange := none }],
    opponent := [{ tag := codes (r"#OP"), pname := none, cards := [],
                   crowns := 0, trophyChange := none }],
    isLadderBattle := true }

/-- Fixture: the second qualifying battle, identical deck and mode, 11:00
the same day (a gap of two hours). -/
def c1b2 : Battle := { c1b1 with battleTime := codes (r"20240101T110000.000Z") }

/-- C1.  Two qualifying battles with identical deck and category separated
by more than 60 minutes on the same calendar day: the segmenter does open a
new group at the gap, but both groups derive the same event id
(same normalized name, same date, same deck hash), so the dict write
overwrites the first group and the output holds a single session containing
only the later battle — the earlier group is lost, for every process hash
seed and every wall clock. -/
theorem c1_same_day_gap_loses_group (hsh : List PyStr → Int) (now : PDateTime) :
    (groupBattlesByEvent hsh now [c1b1, c1b2]).map (fun g => g.2.2) = [[c1b2]]
    ∧ (groupBattlesByEvent hsh now [c1b1, c1b2]).length = 1 := by
  have hmain : groupBattlesByEvent hsh now [c1b1, c1b2]
      = [(genEventId hsh (extractEventData c1b1) c1b1,
          (extractEventData c1b2, [c1b2]))] := by
    have hp1 : parseOr now c1b1.battleTime = ⟨2024, 1, 1, 9, 0, 0⟩ := rfl
    have hp2 : parseOr now c1b2.battleTime = ⟨2024, 1, 1, 11, 0, 0⟩ := rfl
    have hcond1 : isNewEvent c1b1 none ⟨2024, 1, 1, 9, 0, 0⟩ none = true := by decide
    have hcond2 : isNewEvent c1b2 (some (extractEventData c1b1)) ⟨2024, 1, 1, 11, 0, 0⟩
        (some ⟨2024, 1, 1, 9, 0, 0⟩) = true := by decide
    have hsort : List.insertionSort battleLe
        (List.filter (fun b => isEventBattle b) [c1b1, c1b2]) = [c1b1, c1b2] := by
      decide
    have h1 : groupBattlesByEvent hsh now [c1b1, c1b2]
        = groupGo hsh now [] none [] none [c1b1, c1b2] := by
      show groupGo hsh now [] none [] none
          (List.insertionSort battleLe
            (List.filter (fun b => isEventBattle b) [c1b1, c1b2])) = _
      rw [hsort]
    have hid : genEventId hsh (extractEventData c1b2) c1b2
        = genEventId hsh (extractEventData c1b1) c1b1 := by
      have hed : extractEventData c1b2 = extractEventData c1b1 := by decide
      have hdate : dateStrOf ((parseBT c1b2.battleTime).getD ⟨1, 1, 1, 0, 0, 0⟩)
          = dateStrOf ((parseBT c1b1.battleTime).getD ⟨1, 1, 1, 0, 0, 0⟩) := by decide
      rw [hed]
      unfold genEventId
      rw [hdate]
    rw [h1]
    simp only [groupGo, hp1, hp2, hcond1, hcond2, if_true, flushGroup]
    rw [show dinsert ([] : List (PyStr × (EventData × List Battle)))
        (genEventId hsh (extractEventData c1b1) c1b1) (extractEventData c1b1, [c1b1])
        = [(genEventId hsh (extractEventData c1b1) c1b1,
            (extractEventData c1b1, [c1b1]))] from rfl]
    rw [hid, dinsert_cons_self]
  rw [hmain]
  exact ⟨rfl, rfl⟩

/-- Fixture: a stored grand-challenge session (saved into the `challenges`
bucket by `save_event_deck`). -/
def c6Deck : EventDeckM :=
  { event_id := codes (r"gc_20240101_1"), player_tag := codes (r"#P1"),
    event_name := codes (r"Grand Challenge"), event_type := .grand_challenge,
    start_time := t0, end_time := none, deck := ⟨[], 0⟩, performance := {},
    battles := [], notes := none }

/-- C6 counterexample: querying the `challenge` category returns a stored
`grand_challenge` session (both live in the `challenges` directory), so a
returned session's category can differ from the requested one. -/
theorem c6_counterexample_category_mismatch :
    getEventDecks [c6Deck] (some .challenge) none none ⟨2024, 1, 2, 0, 0, 0⟩
      = [c6Deck]
    ∧ c6Deck.event_type ≠ .challenge := by
  constructor <;> decide

lemma getEventDecks_cases (stored : List EventDeckM) (etype : Option EventType)
    (daysBack : Option Nat) (lim : Option Nat) (now : PDateTime) :
    getEventDecks stored etype daysBack lim now
        = List.insertionSort startLeDesc (stored.filter (keepPred etype daysBack now))
    ∨ ∃ n, lim = some n ∧ n ≠ 0
        ∧ getEventDecks stored etype daysBack lim now
            = (List.insertionSort startLeDesc
                (stored.filter (keepPred etype daysBack now))).take n := by
  unfold getEventDecks
  cases lim with
  | none => exact Or.inl rfl
  | some n =>
    by_cases h : n = 0
    · exact Or.inl (by simp [h])
    · exact Or.inr ⟨n, rfl, h, by simp [h]⟩

lemma getEventDecks_mem (stored : List EventDeckM) (etype : Option EventType)
    (daysBack : Option Nat) (lim : Option Nat) (now : PDateTime) (d : EventDeckM)
    (hd : d ∈ getEventDecks stored etype daysBack lim now) :
    keepPred etype daysBack now d = true := by
  rcases getEventDecks_cases stored etype daysBack lim now with h | ⟨n, _, _, h⟩ <;>
    rw [h] at hd
  · exact List.of_mem_filter ((List.mem_insertionSort startLeDesc).mp hd)
  · exact List.of_mem_filter
      ((List.mem_insertionSort startLeDesc).mp (List.take_subset n _ hd))

/-- C6 amended: the query returns sessions sorted newest-first by start
time; every returned session sits in the same storage bucket as the
requested category (the challenge bucket holds every category other than
tournament and special event, so a category filter is only bucket-exact);
the recency cutoff is honoured whenever `days_back` is a nonzero value, and
the limit whenever `limit` is a nonzero value (zero disables either). -/
theorem c6_amended_query (stored : List EventDeckM) (etype : Option EventType)
    (daysBack : Option Nat) (lim : Option Nat) (now : PDateTime) :
    ((getEventDecks stored etype daysBack lim now).Pairwise startLeDesc)
    ∧ (∀ d ∈ getEventDecks stored etype daysBack lim now, ∀ e, etype = some e →
        bucketOf d.event_type = bucketOf e)
    ∧ (∀ d ∈ getEventDecks stored etype daysBack lim now, ∀ n, daysBack = some n →
        n ≠ 0 → (now.toSec : Int) - n * 86400 ≤ (d.start_time.toSec : Int))
    ∧ (∀ n, lim = some n → n ≠ 0 →
        (getEventDecks stored etype daysBack lim now).length ≤ n) := by
  refine ⟨?_, ?_, ?_, ?_⟩
  · rcases getEventDecks_cases stored etype daysBack lim now with h | ⟨n, _, _, h⟩ <;>
      rw [h]
    · exact List.sorted_insertionSort startLeDesc _
    · exact (List.sorted_insertionSort startLeDesc _).sublist (List.take_sublist n _)
  · intro d hd e he
    have hk := getEventDecks_mem stored etype daysBack lim now d hd
    rw [he] at hk
    unfold keepPred at hk
    have := (Bool.and_eq_true _ _).mp hk
    exact eq_of_beq this.1
  · intro d hd n hn h0
    have hk := getEventDecks_mem stored etype daysBack lim now d hd
    rw [hn] at hk
    unfold keepPred at hk
    have h2 := ((Bool.and_eq_true _ _).mp hk).2
    have h2a : (if n = 0 then true
        else !decide ((d.start_time.toSec : Int) < (now.toSec : Int) - n * 86400))
          = true := h2
    rw [if_neg h0] at h2a
    have h3 : ¬ ((d.start_time.toSec : Int) < (now.toSec : Int) - n * 86400) := by
      simpa using h2a
    omega
  · intro n hn h0
    rw [hn]
    show (if n = 0 then
        List.insertionSort startLeDesc (stored.filter (keepPred etype daysBack now))
      else (List.insertionSort startLeDesc
        (stored.filter (keepPred etype daysBack now))).take n).length ≤ n
    rw [if_neg h0]
    simp [List.length_take]

/-- C6 witness: the amended theorem at a concrete store and query with all
three filters set. -/
theorem c6_amended_query_witness :
    (∀ d ∈ getEventDecks [c6Deck] (some .grand_challenge) (some 7) (some 1)
        ⟨2024, 1, 2, 0, 0, 0⟩, ∀ e, (some EventType.grand_challenge) = some e →
        bucketOf d.event_type = bucketOf e)
    ∧ (getEventDecks [c6Deck] (some .grand_challenge) (some 7) (some 1)
        ⟨2024, 1, 2, 0, 0, 0⟩).length ≤ 1 :=
  ⟨(c6_amended_query [c6Deck] (some .grand_challenge) (some 7) (some 1)
      ⟨2024, 1, 2, 0, 0, 0⟩).2.1,
   (c6_amended_query [c6Deck] (some .grand_challenge) (some 7) (some 1)
      ⟨2024, 1, 2, 0, 0, 0⟩).2.2.2 1 rfl (by decide)⟩

lemma lookup_dinsert {V : Type} (m : List (PyStr × V)) (k : PyStr) (v : V)
    (k' : PyStr) :
    List.lookup k' (dinsert m k v) = if k' = k then some v else List.lookup k' m := by
  induction m with
  | nil =>
    by_cases h : k' = k
    · simp [dinsert, List.lookup, h]
    · have hb : (k' == k) = false := beq_eq_false_iff_ne.mpr h
      simp [dinsert, List.lookup, hb, h]
  | cons e m ih =>
    obtain ⟨k0, v0⟩ := e
    unfold dinsert
    by_cases h0 : k0 = k
    · rw [if_pos h0]
      by_cases h : k' = k0
      · have hb : (k' == k0) = true := beq_iff_eq.mpr h
        have hb2 : (k == k0) = true := beq_iff_eq.mpr h0.symm
        have h2 : k' = k := h.trans h0
        simp [List.lookup, hb, hb2, h2]
      · have hb : (k' == k0) = false := beq_eq_false_iff_ne.mpr h
        have h2 : ¬ k' = k := fun hc => h (hc.trans h0.symm)
        simp [List.lookup, hb, h2]
    · rw [if_neg h0]
      by_cases h : k' = k0
      · have hb : (k' == k0) = true := beq_iff_eq.mpr h
        have h2 : ¬ k' = k := fun hc => h0 (h.symm.trans hc)
        simp [List.lookup, hb, h2]
      · have hb : (k' == k0) = false := beq_eq_false_iff_ne.mpr h
        simp [List.lookup, hb, ih]

lemma lookupD_bump (m : List (PyStr × Nat)) (k : PyStr) (v : Nat) (k' : PyStr) :
    ((List.lookup k' (bump m k v)).getD 0)
      = ((List.lookup k' m).getD 0) + (if k' = k then v else 0) := by
  unfold bump
  rw [lookup_dinsert]
  by_cases h : k' = k <;> simp [h]

lemma lookup_isSome_bump (m : List (PyStr × Nat)) (k : PyStr) (v : Nat) (k' : PyStr) :
    (List.lookup k' (bump m k v)).isSome
      = (decide (k' = k) || (List.lookup k' m).isSome) := by
  unfold bump
  rw [lookup_dinsert]
  by_cases h : k' = k <;> simp [h]

lemma foldBump_lookupD (w : Nat) (name : PyStr) :
    ∀ (cards : List CardInDeck) (m : List (PyStr × Nat)),
      ((List.lookup name (cards.foldl (fun m c => bump m c.name w) m)).getD 0)
        = ((List.lookup name m).getD 0)
          + (cards.countP (fun c => c.name == name)) * w := by
  intro cards
  induction cards with
  | nil => intro m; simp
  | cons c cards ih =>
    intro m
    show ((List.lookup name (cards.foldl (fun m c => bump m c.name w)
        (bump m c.name w))).getD 0) = _
    rw [ih (bump m c.name w), lookupD_bump, List.countP_cons]
    by_cases h : c.name = name
    · subst h
      simp only [if_pos rfl, beq_self_eq_true, if_true, Nat.add_mul, Nat.one_mul]
      omega
    · have h' : ¬ name = c.name := fun hc => h hc.symm
      have hb : (c.name == name) = false := beq_eq_false_iff_ne.mpr h
      simp only [h', if_false, hb, Bool.false_eq_true, Nat.add_zero]

lemma foldBump_isSome (w : Nat) (name : PyStr) :
    ∀ (cards : List CardInDeck) (m : List (PyStr × Nat)),
      (List.lookup name (cards.foldl (fun m c => bump m c.name w) m)).isSome
        = (cards.any (fun c => c.name == name) || (List.lookup name m).isSome) := by
  intro cards
  induction cards with
  | nil => intro m; simp
  | cons c cards ih =>
    intro m
    show (List.lookup name (cards.foldl (fun m c => bump m c.name w)
        (bump m c.name w))).isSome = _
    rw [ih (bump m c.name w), lookup_isSome_bump, List.any_cons]
    by_cases h : c.name = name
    · simp [h]
    · have h' : ¬ name = c.name := fun hc => h hc.symm
      have hb : (c.name == name) = false := beq_eq_false_iff_ne.mpr h
      simp [hb, h']

lemma foldDecks_lookupD (f : EventDeckM → Nat) (name : PyStr) :
    ∀ (decks : List EventDeckM) (m : List (PyStr × Nat)),
      ((List.lookup name (decks.foldl
          (fun m d => d.deck.cards.foldl (fun m c => bump m c.name (f d)) m) m)).getD 0)
        = ((List.lookup name m).getD 0)
          + (decks.map (fun d => countName name d * f d)).sum := by
  intro decks
  induction decks with
  | nil => intro m; simp
  | cons d decks ih =>
    intro m
    show ((List.lookup name (decks.foldl _
        (d.deck.cards.foldl (fun m c => bump m c.name (f d)) m))).getD 0) = _
    rw [ih, foldBump_lookupD]
    unfold countName
    simp
    omega

lemma foldDecks_isSome (f : EventDeckM → Nat) (name : PyStr) :
    ∀ (decks : List EventDeckM) (m : List (PyStr × Nat)),
      (List.lookup name (decks.foldl
          (fun m d => d.deck.cards.foldl (fun m c => bump m c.name (f d)) m) m)).isSome
        = (decks.any (fun d => d.deck.cards.any (fun c => c.name == name))
            || (List.lookup name m).isSome) := by
  intro decks
  induction decks with
  | nil => intro m; simp
  | cons d decks ih =>
    intro m
    show (List.lookup name (decks.foldl _
        (d.deck.cards.foldl (fun m c => bump m c.name (f d)) m))).isSome = _
    rw [ih, foldBump_isSome, List.any_cons]
    cases d.deck.cards.any (fun c => c.name == name) <;>
      cases decks.any (fun d => d.deck.cards.any (fun c => c.name == name)) <;>
        simp

lemma cardWins_lookupD (decks : List EventDeckM) (name : PyStr) :
    ((List.lookup name (cardWins decks)).getD 0) = sumWinsFor decks name := by
  have h := foldDecks_lookupD (fun d => d.performance.wins) name decks []
  simpa [cardWins, sumWinsFor] using h

lemma cardLosses_lookupD (decks : List EventDeckM) (name : PyStr) :
    ((List.lookup name (cardLosses decks)).getD 0) = sumLossesFor decks name := by
  have h := foldDecks_lookupD (fun d => d.performance.losses) name decks []
  simpa [cardLosses, sumLossesFor] using h

lemma cardUsage_isSome (decks : List EventDeckM) (name : PyStr) :
    (List.lookup name (cardUsage decks)).isSome = appearsB decks name := by
  have h := foldDecks_isSome (fun _ => 1) name decks []
  simpa [cardUsage, appearsB] using h

lemma lookup_isSome_any {V : Type} (m : List (PyStr × V)) (k : PyStr) :
    (List.lookup k m).isSome = m.any (fun e => e.1 == k) := by
  induction m with
  | nil => simp
  | cons e m ih =>
    obtain ⟨k0, v0⟩ := e
    by_cases h : k = k0
    · simp [List.lookup, h]
    · have hb : (k == k0) = false := by simpa using h
      have hb' : (k0 == k) = false := by simpa using fun hc => h hc.symm
      simp [List.lookup, hb, hb', ih]

lemma ratesFold_lookup (decks : List EventDeckM) (name : PyStr) :
    ∀ (es : List (PyStr × Nat)) (m0 : List (PyStr × ℚ)),
      List.lookup name (es.foldl
        (fun m e =>
          let w := (List.lookup e.1 (cardWins decks)).getD 0
          let l := (List.lookup e.1 (cardLosses decks)).getD 0
          if 0 < w + l then dinsert m e.1 ((w : ℚ) / ((w : ℚ) + (l : ℚ))) else m)
        m0)
      = if es.any (fun e => e.1 == name)
            && decide (0 < ((List.lookup name (cardWins decks)).getD 0)
                         + ((List.lookup name (cardLosses decks)).getD 0))
        then some ((((List.lookup name (cardWins decks)).getD 0 : Nat) : ℚ)
            / ((((List.lookup name (cardWins decks)).getD 0 : Nat) : ℚ)
               + (((List.lookup name (cardLosses decks)).getD 0 : Nat) : ℚ)))
        else List.lookup name m0 := by
  intro es
  induction es with
  | nil => intro m0; simp
  | cons e es ih =>
    intro m0
    rw [List.foldl_cons, ih]
    by_cases hcond : 0 < ((List.lookup name (cardWins decks)).getD 0)
        + ((List.lookup name (cardLosses decks)).getD 0)
    · by_cases he : e.1 = name
      · have hc2 : 0 < ((List.lookup e.1 (cardWins decks)).getD 0)
            + ((List.lookup e.1 (cardLosses decks)).getD 0) := by rw [he]; exact hcond
        by_cases hany : es.any (fun e => e.1 == name) = true
        · simp [hcond, hany]
        · have hany' : es.any (fun e => e.1 == name) = false := Bool.eq_false_iff.mpr hany
          simp [hcond, hany', hc2, lookup_dinsert, he]
      · have hne : ¬ name = e.1 := fun hc => he hc.symm
        have hhead : (e.1 == name) = false := beq_eq_false_iff_ne.mpr he
        by_cases hany : es.any (fun e => e.1 == name) = true
        · simp [hcond, hany, hhead]
        · have hany' : es.any (fun e => e.1 == name) = false := Bool.eq_false_iff.mpr hany
          by_cases hc2 : 0 < ((List.lookup e.1 (cardWins decks)).getD 0)
              + ((List.lookup e.1 (cardLosses decks)).getD 0)
          · simp [hcond, hany', hhead, hc2, lookup_dinsert, hne]
          · simp [hcond, hany', hhead, hc2]
    · by_cases he : e.1 = name
      · have hc2 : ¬ 0 < ((List.lookup e.1 (cardWins decks)).getD 0)
            + ((List.lookup e.1 (cardLosses decks)).getD 0) := by rw [he]; exact hcond
        simp [hcond, hc2]
      · have hne : ¬ name = e.1 := fun hc => he hc.symm
        by_cases hc2 : 0 < ((List.lookup e.1 (cardWins decks)).getD 0)
            + ((List.lookup e.1 (cardLosses decks)).getD 0)
        · simp [hcond, hc2, lookup_dinsert, hne]
        · simp [hcond, hc2]

lemma sumpos_appears (decks : List EventDeckM) (name : PyStr)
    (h : 0 < sumWinsFor decks name + sumLossesFor decks name) :
    appearsB decks name = true := by
  by_contra hap
  have hap' : appearsB decks name = false := by simpa using hap
  have hz : ∀ d ∈ decks, countName name d = 0 := by
    intro d hd
    have hfalse : d.deck.cards.any (fun c => c.name == name) = false := by
      by_contra h2
      have h2' : d.deck.cards.any (fun c => c.name == name) = true := by simpa using h2
      have : appearsB decks name = true := by
        unfold appearsB
        rw [List.any_eq_true]
        exact ⟨d, hd, h2'⟩
      rw [this] at hap'
      cases hap'
    unfold countName
    exact List.countP_eq_zero.mpr (List.any_eq_false.mp hfalse)
  have h1 : sumWinsFor decks name = 0 := by
    unfold sumWinsFor
    apply List.sum_eq_zero
    intro x hx
    obtain ⟨d, hd, rfl⟩ := List.mem_map.mp hx
    rw [hz d hd]
    simp
  have h2 : sumLossesFor decks name = 0 := by
    unfold sumLossesFor
    apply List.sum_eq_zero
    intro x hx
    obtain ⟨d, hd, rfl⟩ := List.mem_map.mp hx
    rw [hz d hd]
    simp
  omega

/-- C9 amended: the per-card win-rate table has an entry for a card exactly
when its summed wins plus losses across the analyzed sessions is positive,
and that entry equals summed wins over summed wins plus losses; a card that
appears only in sessions with zero recorded battles is omitted from the
table (not reported as 0), although it still appears in the usage table. -/
theorem c9_amended_card_win_rates (decks : List EventDeckM) (name : PyStr) :
    List.lookup name (cardWinRates decks)
      = (if 0 < sumWinsFor decks name + sumLossesFor decks name
         then some (((sumWinsFor decks name : Nat) : ℚ)
             / (((sumWinsFor decks name : Nat) : ℚ)
                + ((sumLossesFor decks name : Nat) : ℚ)))
         else none)
    ∧ (List.lookup name (cardUsage decks)).isSome = appearsB decks name := by
  constructor
  · have h := ratesFold_lookup decks name (cardUsage decks) []
    have hcw := cardWins_lookupD decks name
    have hcl := cardLosses_lookupD decks name
    show List.lookup name (cardWinRates decks) = _
    unfold cardWinRates
    rw [h, hcw, hcl]
    by_cases hc : 0 < sumWinsFor decks name + sumLossesFor decks name
    · have happ : appearsB decks name = true := sumpos_appears decks name hc
      have hany : (cardUsage decks).any (fun e => e.1 == name) = true := by
        rw [← lookup_isSome_any, cardUsage_isSome]
        exact happ
      simp [hany, hc]
    · simp [hc]
  · exact cardUsage_isSome decks name

/-- Fixture: an analyzed session with the eight-card deck and no recorded
battles. -/
def c9Deck : EventDeckM :=
  { event_id := codes (r"c9_20240101_1"), player_tag := codes (r"#P1"),
    event_name := codes (r"C9"), event_type := .challenge, start_time := t0,
    end_time := none,
    deck := ⟨[ { name := codes (r"Archers"), id := 2, level := 11, max_level := 14,
                 rarity := codes (r"common"), elixir_cost := 3 }
             , { name := codes (r"Giant"), id := 1, level := 11, max_level := 14,
                 rarity := codes (r"common"), elixir_cost := 5 } ], 4⟩,
    performance := {}, battles := [], notes := none }

/-- C9 counterexample: a card that appears in a session with zero recorded
battles gets no entry in the win-rate table at all, instead of the claimed
entry 0. -/
theorem c9_counterexample_zero_battles_omitted :
    appearsB [c9Deck] (codes (r"Archers")) = true
    ∧ List.lookup (codes (r"Archers")) (cardWinRates [c9Deck]) = none := by
  constructor <;> decide

lemma strLeB_total : ∀ s t : PyStr, strLeB s t = true ∨ strLeB t s = true := by
  intro s
  induction s with
  | nil => intro t; exact Or.inl rfl
  | cons a s ih =>
    intro t
    cases t with
    | nil => exact Or.inr rfl
    | cons b t =>
      unfold strLeB
      rcases Nat.lt_trichotomy a b with h | h | h
      · left; rw [if_pos h]
      · subst h
        rcases ih t with h1 | h1
        · left; rw [if_neg (lt_irrefl a), if_neg (lt_irrefl a)]; exact h1
        · right; rw [if_neg (lt_irrefl a), if_neg (lt_irrefl a)]; exact h1
      · right; rw [if_pos h]

lemma strLeB_trans : ∀ s t u : PyStr, strLeB s t = true → strLeB t u = true →
    strLeB s u = true := by
  intro s
  induction s with
  | nil => intro t u _ _; rfl
  | cons a s ih =>
    intro t u h1 h2
    cases t with
    | nil => cases h1
    | cons b t =>
      cases u with
      | nil => cases h2
      | cons c u =>
        unfold strLeB at h1 h2 ⊢
        rcases Nat.lt_trichotomy a b with hab | hab | hab
        · rcases Nat.lt_trichotomy b c with hbc | hbc | hbc
          · rw [if_pos (hab.trans hbc)]
          · subst hbc; rw [if_pos hab]
          · rw [if_neg hbc.asymm, if_pos hbc] at h2; cases h2
        · subst hab
          rcases Nat.lt_trichotomy a c with hbc | hbc | hbc
          · rw [if_pos hbc]
          · subst hbc
            rw [if_neg (lt_irrefl a), if_neg (lt_irrefl a)] at h1 h2 ⊢
            exact ih t u h1 h2
          · rw [if_neg hbc.asymm, if_pos hbc] at h2; cases h2
        · rw [if_neg hab.asymm, if_pos hab] at h1; cases h1

instance battleLeTotal : IsTotal Battle battleLe :=
  ⟨fun x y => strLeB_total x.battleTime y.battleTime⟩

instance battleLeTrans : IsTrans Battle battleLe :=
  ⟨fun x y z => strLeB_trans x.battleTime y.battleTime z.battleTime⟩

/-- Python strict string comparison `s < t`. -/
def strLtB : PyStr → PyStr → Bool
  | [], [] => false
  | [], _ :: _ => true
  | _ :: _, [] => false
  | a :: s1, b :: s2 => if a < b then true else if b < a then false else strLtB s1 s2

lemma strLeB_append_split : ∀ (u v r1 r2 : PyStr), u.length = v.length →
    strLeB (u ++ r1) (v ++ r2) = true → strLtB u v = true ∨ u = v := by
  intro u
  induction u with
  | nil =>
    intro v r1 r2 hlen _
    cases v with
    | nil => exact Or.inr rfl
    | cons b v => simp at hlen
  | cons a u ih =>
    intro v r1 r2 hlen h
    cases v with
    | nil => simp at hlen
    | cons b v =>
      rw [List.cons_append, List.cons_append] at h
      unfold strLeB at h
      by_cases hab : a < b
      · left; unfold strLtB; rw [if_pos hab]
      · by_cases hba : b < a
        · rw [if_neg hab, if_pos hba] at h; cases h
        · have heq : a = b := by omega
          subst heq
          rw [if_neg hab, if_neg hba] at h
          rcases ih v r1 r2 (by simpa using hlen) h with h1 | h1
          · left; unfold strLtB
            rw [if_neg (lt_irrefl a), if_neg (lt_irrefl a)]
            exact h1
          · right; rw [h1]

/-- Field bounds every successfully parsed stamp satisfies. -/
def inBounds (a : PDateTime) : Prop :=
  a.year ≤ 9999 ∧ a.month ≤ 99 ∧ a.day ≤ 99 ∧ a.hour ≤ 99 ∧ a.minute ≤ 99
    ∧ a.second ≤ 99

lemma parseClean_shape (cs : PyStr) (a : PDateTime) (h : parseClean cs = some a) :
    cs = cleanOf a ∧ inBounds a := by
  rcases cs with _ | ⟨c0, _ | ⟨c1, _ | ⟨c2, _ | ⟨c3, _ | ⟨c4, _ | ⟨c5, _ | ⟨c6,
    _ | ⟨c7, _ | ⟨c8, _ | ⟨c9, _ | ⟨c10, _ | ⟨c11, _ | ⟨c12, _ | ⟨c13,
    _ | ⟨c14, _ | ⟨c15, rest⟩⟩⟩⟩⟩⟩⟩⟩⟩⟩⟩⟩⟩⟩⟩⟩
  all_goals try (exfalso; revert h; simp [parseClean]; done)
  simp only [parseClean] at h
  split_ifs at h with hdig hrange
  · simp only [digitB, Bool.and_eq_true, decide_eq_true_eq, beq_iff_eq] at hdig
    injection h with h'
    subst h'
    refine ⟨?_, ?_⟩
    · simp only [cleanOf, pad4, pad2, dv, List.cons_append, List.nil_append,
        List.cons.injEq, and_true]
      omega
    · unfold inBounds
      simp only [dv]
      omega

lemma cleanOf_key_eq (a b : PDateTime) (ba : inBounds a) (bb : inBounds b)
    (h : cleanOf a = cleanOf b) : a.key = b.key := by
  simp only [cleanOf, pad4, pad2, List.cons_append, List.nil_append,
    List.cons.injEq, and_true] at h
  unfold inBounds at ba bb
  unfold PDateTime.key
  omega

lemma strLtB_cons (x y : Nat) (s t : PyStr) :
    (strLtB (x :: s) (y :: t) = true) ↔ (x < y ∨ (x = y ∧ strLtB s t = true)) := by
  show (if x < y then true else if y < x then false else strLtB s t) = true ↔ _
  split_ifs with h1 h2
  · simp [h1]
  · constructor
    · intro hc; cases hc
    · rintro (hc | ⟨hc, _⟩) <;> omega
  · have hxy : x = y := by omega
    subst hxy
    constructor
    · intro hh; exact Or.inr ⟨rfl, hh⟩
    · rintro (hc | ⟨_, hc⟩)
      · exact absurd hc (lt_irrefl x)
      · exact hc

lemma strLtB_nil_nil : (strLtB ([] : PyStr) ([] : PyStr) = true) ↔ False := by
  constructor
  · intro h; cases h
  · intro h; cases h

lemma strLt_cleanOf_key (a b : PDateTime) (ba : inBounds a) (bb : inBounds b)
    (h : strLtB (cleanOf a) (cleanOf b) = true) : a.key < b.key := by
  simp only [cleanOf, pad4, pad2, List.cons_append, List.nil_append] at h
  simp only [strLtB_cons, strLtB_nil_nil] at h
  obtain ⟨a1, a2, a3, a4, a5, a6⟩ := ba
  obtain ⟨b1, b2, b3, b4, b5, b6⟩ := bb
  unfold PDateTime.key
  rcases h with h | ⟨e0, h⟩
  · omega
  rcases h with h | ⟨e1, h⟩
  · omega
  rcases h with h | ⟨e2, h⟩
  · omega
  rcases h with h | ⟨e3, h⟩
  · omega
  rcases h with h | ⟨e4, h⟩
  · omega
  rcases h with h | ⟨e5, h⟩
  · omega
  rcases h with h | ⟨e6, h⟩
  · omega
  rcases h with h | ⟨e7, h⟩
  · omega
  rcases h with h | ⟨e8, h⟩
  · omega
  rcases h with h | ⟨e9, h⟩
  · omega
  rcases h with h | ⟨e10, h⟩
  · omega
  rcases h with h | ⟨e11, h⟩
  · omega
  rcases h with h | ⟨e12, h⟩
  · omega
  rcases h with h | ⟨e13, h⟩
  · omega
  rcases h with h | ⟨e14, h⟩
  · omega
  exact h.elim

lemma key_mono_of_parse (s t : PyStr) (a b : PDateTime)
    (hs : parseBT s = some a) (ht : parseBT t = some b)
    (hle : strLeB s t = true) : a.key ≤ b.key := by
  unfold parseBT at hs ht
  obtain ⟨hcs, ba⟩ := parseClean_shape _ _ hs
  obtain ⟨hct, bb⟩ := parseClean_shape _ _ ht
  have hsplit : s = cleanOf a ++ (s.dropWhile (fun c => c ≠ 46)) := by
    conv_lhs => rw [← List.takeWhile_append_dropWhile (p := fun c => c ≠ 46) (l := s)]
    rw [hcs]
  have htplit : t = cleanOf b ++ (t.dropWhile (fun c => c ≠ 46)) := by
    conv_lhs => rw [← List.takeWhile_append_dropWhile (p := fun c => c ≠ 46) (l := t)]
    rw [hct]
  rw [hsplit, htplit] at hle
  have hlen : (cleanOf a).length = (cleanOf b).length := by
    simp [cleanOf, pad4, pad2]
  rcases strLeB_append_split _ _ _ _ hlen hle with h1 | h1
  · exact le_of_lt (strLt_cleanOf_key a b ba bb h1)
  · exact le_of_eq (cleanOf_key_eq a b ba bb h1)

lemma dinsert_forall {V : Type} (Q : V → Prop) (gs : List (PyStr × V)) (k : PyStr)
    (v : V) (hgs : ∀ g ∈ gs, Q g.2) (hv : Q v) :
    ∀ g ∈ dinsert gs k v, Q g.2 := by
  induction gs with
  | nil =>
    intro g hg
    rcases List.mem_singleton.mp hg with rfl
    exact hv
  | cons e t ih =>
    obtain ⟨k0, v0⟩ := e
    intro g hg
    unfold dinsert at hg
    split_ifs at hg with h0
    · rcases List.mem_cons.mp hg with rfl | hmem
      · exact hv
      · exact hgs g (List.mem_cons_of_mem _ hmem)
    · rcases List.mem_cons.mp hg with rfl | hmem
      · exact hgs (k0, v0) (List.mem_cons_self _ _)
      · exact ih (fun g hg => hgs g (List.mem_cons_of_mem _ hg)) g hmem

lemma flushGroup_forall (Q : EventData × List Battle → Prop)
    (hsh : List PyStr → Int) (groups : List EGroup) (curEv : Option EventData)
    (curBs : List Battle) (hgs : ∀ g ∈ groups, Q g.2)
    (hcur : ∀ ev, curEv = some ev → Q (ev, curBs)) :
    ∀ g ∈ flushGroup hsh groups curEv curBs, Q g.2 := by
  cases curEv with
  | none => cases curBs <;> exact hgs
  | some ev =>
    cases curBs with
    | nil => exact hgs
    | cons b0 bs =>
      exact dinsert_forall Q groups _ _ hgs (hcur ev rfl)

lemma groupGo_forall (hsh : List PyStr → Int) (now : PDateTime)
    (P : Battle → Prop) :
    ∀ (rest : List Battle) (groups : List EGroup) (curEv : Option EventData)
      (curBs : List Battle) (lastT : Option PDateTime),
      (∀ g ∈ groups, (∀ x ∈ g.2.2, P x) ∧ g.2.2.Pairwise battleLe) →
      (∀ x ∈ curBs, P x) → curBs.Pairwise battleLe →
      (∀ x ∈ rest, P x) → rest.Pairwise battleLe →
      (∀ x ∈ curBs, ∀ y ∈ rest, battleLe x y) →
      ∀ g ∈ groupGo hsh now groups curEv curBs lastT rest,
        (∀ x ∈ g.2.2, P x) ∧ g.2.2.Pairwise battleLe := by
  intro rest
  induction rest with
  | nil =>
    intro groups curEv curBs lastT hg hcP hcS _ _ _
    show ∀ g ∈ flushGroup hsh groups curEv curBs, _
    exact flushGroup_forall
      (fun v => (∀ x ∈ v.2, P x) ∧ v.2.Pairwise battleLe) hsh groups curEv curBs
      hg (fun ev _ => ⟨hcP, hcS⟩)
  | cons b rest ih =>
    intro groups curEv curBs lastT hg hcP hcS hrP hrS hcross
    have hPb : P b := hrP b (List.mem_cons_self _ _)
    have hrP' : ∀ x ∈ rest, P x := fun x hx => hrP x (List.mem_cons_of_mem _ hx)
    have hrS' : rest.Pairwise battleLe := (List.pairwise_cons.mp hrS).2
    have hble : ∀ y ∈ rest, battleLe b y := (List.pairwise_cons.mp hrS).1
    show ∀ g ∈ (if isNewEvent b curEv (parseOr now b.battleTime) lastT then
        groupGo hsh now (flushGroup hsh groups curEv curBs)
          (some (extractEventData b)) [b] (some (parseOr now b.battleTime)) rest
      else
        groupGo hsh now groups curEv (curBs ++ [b])
          (some (parseOr now b.battleTime)) rest), _
    by_cases hne : isNewEvent b curEv (parseOr now b.battleTime) lastT = true
    · rw [if_pos hne]
      apply ih
      · exact flushGroup_forall
          (fun v => (∀ x ∈ v.2, P x) ∧ v.2.Pairwise battleLe) hsh groups curEv
          curBs hg (fun ev _ => ⟨hcP, hcS⟩)
      · intro x hx
        rcases List.mem_singleton.mp hx with rfl
        exact hPb
      · exact List.pairwise_singleton _ _
      · exact hrP'
      · exact hrS'
      · intro x hx y hy
        rcases List.mem_singleton.mp hx with rfl
        exact hble y hy
    · rw [if_neg hne]
      apply ih
      · exact hg
      · intro x hx
        rcases List.mem_append.mp hx with h1 | h1
        · exact hcP x h1
        · rcases List.mem_singleton.mp h1 with rfl
          exact hPb
      · rw [List.pairwise_append]
        refine ⟨hcS, List.pairwise_singleton _ _, ?_⟩
        intro x hx y hy
        rcases List.mem_singleton.mp hy with rfl
        exact hcross x hx y (List.mem_cons_self _ _)
      · exact hrP'
      · exact hrS'
      · intro x hx y hy
        rcases List.mem_append.mp hx with h1 | h1
        · exact hcross x h1 y (List.mem_cons_of_mem _ hy)
        · rcases List.mem_singleton.mp h1 with rfl
          exact hble y hy

/-- C7 amended: every battle placed in any output session satisfies the
event-battle classification predicate and comes from the input; and
whenever every input battle carries a parseable canonical battleTime stamp,
every output session's battle list is in non-decreasing timestamp order.
(With an unparseable stamp the fallback to the wall clock can break the
order — see the counterexample.) -/
theorem c7_sessions_sorted_event_battles (hsh : List PyStr → Int)
    (now : PDateTime) (battles : List Battle) :
    (∀ g ∈ groupBattlesByEvent hsh now battles, ∀ x ∈ g.2.2,
        isEventBattle x = true ∧ x ∈ battles)
    ∧ ((∀ x ∈ battles, (parseBT x.battleTime).isSome) →
        ∀ g ∈ groupBattlesByEvent hsh now battles,
          g.2.2.Pairwise (fun x y =>
            (parseOr now x.battleTime).key ≤ (parseOr now y.battleTime).key)) := by
  have hmain : ∀ g ∈ groupBattlesByEvent hsh now battles,
      (∀ x ∈ g.2.2, isEventBattle x = true ∧ x ∈ battles)
      ∧ g.2.2.Pairwise battleLe := by
    have h := groupGo_forall hsh now
      (fun x => isEventBattle x = true ∧ x ∈ battles)
      (List.insertionSort battleLe (battles.filter (fun b => isEventBattle b)))
      [] none [] none
      (by simp)
      (by simp)
      List.Pairwise.nil
      (fun x hx =>
        ⟨(List.mem_filter.mp ((List.mem_insertionSort battleLe).mp hx)).2,
         (List.mem_filter.mp ((List.mem_insertionSort battleLe).mp hx)).1⟩)
      (List.sorted_insertionSort battleLe _)
      (by simp)
    exact h
  constructor
  · intro g hg x hx
    exact (hmain g hg).1 x hx
  · intro hcanon g hg
    apply List.Pairwise.imp_of_mem _ (hmain g hg).2
    intro x y hx hy hxy
    have hxb : x ∈ battles := ((hmain g hg).1 x hx).2
    have hyb : y ∈ battles := ((hmain g hg).1 y hy).2
    obtain ⟨dx, hdx⟩ := Option.isSome_iff_exists.mp (hcanon x hxb)
    obtain ⟨dy, hdy⟩ := Option.isSome_iff_exists.mp (hcanon y hyb)
    have hox : parseOr now x.battleTime = dx := by unfold parseOr; rw [hdx]; rfl
    have hoy : parseOr now y.battleTime = dy := by unfold parseOr; rw [hdy]; rfl
    rw [hox, hoy]
    exact key_mono_of_parse _ _ _ _ hdx hdy hxy

/-- C7 witness: the amended theorem at a concrete canonical two-battle log. -/
theorem c7_sessions_sorted_event_battles_witness :
    ∀ g ∈ groupBattlesByEvent (fun _ => 0) t0 [c1b1, c1b2],
      g.2.2.Pairwise (fun x y =>
        (parseOr t0 x.battleTime).key ≤ (parseOr t0 y.battleTime).key) :=
  (c7_sessions_sorted_event_battles (fun _ => 0) t0 [c1b1, c1b2]).2 (by decide)

/-- Fixture: a qualifying battle with an unparseable battleTime. -/
def c7Bad : Battle :=
  { battleTime := [], gameModeName := codes (r"Classic Challenge"), team := [],
    opponent := [], isLadderBattle := true }

/-- Fixture: a qualifying battle with a canonical battleTime. -/
def c7Good : Battle := { c7Bad with battleTime := codes (r"20240101T000000.000Z") }

/-- C7 counterexample: with one unparseable battleTime (falling back to a
wall clock later than the other battle), the single output session's battle
list is not in non-decreasing timestamp order. -/
theorem c7_counterexample_fallback_breaks_order :
    ¬ (∀ g ∈ groupBattlesByEvent (fun _ => 0) ⟨2030, 1, 1, 0, 0, 0⟩ [c7Bad, c7Good],
        g.2.2.Pairwise (fun x y =>
          (parseOr ⟨2030, 1, 1, 0, 0, 0⟩ x.battleTime).key
            ≤ (parseOr ⟨2030, 1, 1, 0, 0, 0⟩ y.battleTime).key)) := by
  decide
